import Mathlib

/-!
Verification development for the file-processing / analytics route
(`src/app/api/file-process/route.ts`).

The route is shallowly embedded:

* JavaScript runtime values (the `any`-typed document payloads and model
  responses) are modelled by the mutual inductive family `JsValue` /
  `JsArr` / `JsObj` (an object is an ordered association list, matching
  `Object.entries` / insertion order);
* the external generative service is modelled as an oracle
  `Svc : String → Nat → Except GenErr (List Char)` mapping a metric name
  and an attempt index to either a raised error (network failure, or the
  10-second per-call timeout losing the `Promise.race`) or the raw reply
  text.  The prompt built from the serialized document is consumed only by
  this external collaborator, so it is abstracted into the oracle;
* the host JSON parser (`JSON.parse`) is an abstract parameter
  `JParse : List Char → Option JsValue` (`none` models a parse exception);
* `throw` / promise rejection is modelled with `Except`; the `await`
  structure of the orchestrator is modelled by the order in which the
  embedding evaluates its calls, recorded in an explicit trace of
  service-call events (`CallEv`).  `Promise.all` over the metric promises
  evaluates every branch (in JavaScript the losing promises keep running
  after a fail-fast rejection, so their service calls still happen) and
  rejects iff some branch rejects;
* functions whose JavaScript recursion is not structural are given a fuel
  parameter that makes them structurally recursive (hence executable and
  kernel-reducible); fuel-stability lemmas recover the natural unfolding
  equations.
-/

/- ===================== JavaScript values ===================== -/

mutual
/-- A JavaScript runtime value, as far as the route manipulates them. -/
inductive JsValue where
  | null
  | undef
  | bool (b : Bool)
  | num (n : Int)
  | str (s : String)
  | arr (elems : JsArr)
  | obj (fields : JsObj)
/-- A JavaScript array of values. -/
inductive JsArr where
  | nil
  | cons (head : JsValue) (tail : JsArr)
/-- A JavaScript object: ordered fields, as seen by `Object.entries`. -/
inductive JsObj where
  | nil
  | cons (key : String) (value : JsValue) (tail : JsObj)
end

/-- Build a `JsArr` from a Lean list. -/
def JsArr.ofList : List JsValue → JsArr
  | [] => .nil
  | x :: xs => .cons x (JsArr.ofList xs)

/-- Build a `JsObj` from a Lean association list. -/
def JsObj.ofList : List (String × JsValue) → JsObj
  | [] => .nil
  | (k, v) :: rest => .cons k v (JsObj.ofList rest)

/-- Array literal. -/
def jarr (l : List JsValue) : JsValue := .arr (JsArr.ofList l)

/-- Object literal. -/
def jobj (l : List (String × JsValue)) : JsValue := .obj (JsObj.ofList l)

/-- `v === null || v === undefined` (the values stripped by `cleanData`). -/
def nullishB : JsValue → Bool
  | .null => true
  | .undef => true
  | _ => false

/-- `typeof v === 'object' && v !== null` — true exactly for arrays and
plain objects (the values `cleanData` recurses into). -/
def isObjLikeB : JsValue → Bool
  | .arr _ => true
  | .obj _ => true
  | _ => false

/-- A non-object scalar (including `null`/`undefined`). -/
def isScalarB (v : JsValue) : Bool := !(isObjLikeB v)

/-- Is the value an array? -/
def isArrB : JsValue → Bool
  | .arr _ => true
  | _ => false

/-- JavaScript truthiness of a `JsValue` (no NaN in the model). -/
def truthyB : JsValue → Bool
  | .null => false
  | .undef => false
  | .bool b => b
  | .num n => n != 0
  | .str s => !(s == "")
  | .arr _ => true
  | .obj _ => true

/-- First-match field lookup in an object's field list. -/
def lookupObj : JsObj → String → Option JsValue
  | .nil, _ => none
  | .cons k v t, key => if k = key then some v else lookupObj t key

/-- Property read `v[k]`: a field of an object, `undefined` (`none`)
otherwise. -/
def objLookup (v : JsValue) (k : String) : Option JsValue :=
  match v with
  | .obj kvs => lookupObj kvs k
  | _ => none

/-- Two-step property read `v[k1][k2]` with optional chaining. -/
def objLookup2 (v : JsValue) (k1 k2 : String) : Option JsValue :=
  match objLookup v k1 with
  | some w => objLookup w k2
  | none => none

/-- Does the value have the four fields of a `MetricResult`
(`summary`, `key_points`, `metrics`, `recommendations`)? -/
def isMetricResultB (v : JsValue) : Bool :=
  (objLookup v "summary").isSome && (objLookup v "key_points").isSome &&
    (objLookup v "metrics").isSome && (objLookup v "recommendations").isSome

/- ===================== cleanData (route lines 343–355) ===================== -/

mutual
/-- `AnalyticsGenerator.cleanData`.  Scalars (JavaScript `typeof ≠ 'object'`,
plus `null`) are returned unchanged; otherwise the value goes through
`Object.entries`, dropping `null`/`undefined`-valued entries and recursing
into object-typed values.  A JavaScript *array* also has
`typeof === 'object'`, so it takes the `Object.entries` path and is rebuilt
as a plain object keyed by the elements' decimal indices. -/
def cleanData : JsValue → JsValue
  | .arr xs => .obj (cleanArrGo 0 xs)
  | .obj kvs => .obj (cleanObjGo kvs)
  | v => v
/-- `Object.entries` pass of `cleanData` over an array, tracking the index. -/
def cleanArrGo : Nat → JsArr → JsObj
  | _, .nil => .nil
  | i, .cons x t =>
      if nullishB x then cleanArrGo (i + 1) t
      else .cons (toString i) (if isObjLikeB x then cleanData x else x) (cleanArrGo (i + 1) t)
/-- `Object.entries` pass of `cleanData` over an object's fields. -/
def cleanObjGo : JsObj → JsObj
  | .nil => .nil
  | .cons k v t =>
      if nullishB v then cleanObjGo t
      else .cons k (if isObjLikeB v then cleanData v else v) (cleanObjGo t)
end

mutual
/-- No `null`/`undefined`-valued object field survives at any nesting depth
(array elements are checked recursively as well). -/
def cleanOk : JsValue → Bool
  | .arr xs => cleanOkArr xs
  | .obj kvs => cleanOkObj kvs
  | _ => true
/-- `cleanOk` over array elements. -/
def cleanOkArr : JsArr → Bool
  | .nil => true
  | .cons x t => cleanOk x && cleanOkArr t
/-- `cleanOk` over object fields. -/
def cleanOkObj : JsObj → Bool
  | .nil => true
  | .cons _ v t => !nullishB v && cleanOk v && cleanOkObj t
end

/- ============ JSON serialization and formatData (route lines 336–341) ============ -/

/-- Minimal JSON string escaping (quote and backslash). -/
def escChars : List Char → List Char
  | [] => []
  | c :: r =>
      (if c = '"' then ['\\', '"'] else if c = '\\' then ['\\', '\\'] else [c]) ++ escChars r

/-- Escape a string for JSON output. -/
def escapeJson (s : String) : String := String.mk (escChars s.toList)

mutual
/-- `JSON.stringify` over the modelled values.  (`undefined` is rendered as
`null`; at the one place the route serializes, the argument is a `cleanData`
output or a parsed document, so the top-level-`undefined` corner of
`JSON.stringify` does not arise.) -/
def jsonStringify : JsValue → String
  | .null => "null"
  | .undef => "null"
  | .bool b => cond b "true" "false"
  | .num n => toString n
  | .str s => "\"" ++ escapeJson s ++ "\""
  | .arr xs => "[" ++ stringifyArr xs ++ "]"
  | .obj kvs => "\x7b" ++ String.intercalate "," (stringifyObjEntries kvs) ++ "\x7d"
/-- Comma-separated rendering of array elements. -/
def stringifyArr : JsArr → String
  | .nil => ""
  | .cons x .nil => jsonStringify x
  | .cons x t => jsonStringify x ++ "," ++ stringifyArr t
/-- Rendered `"key":value` entries of an object (`undefined` fields are
dropped, as `JSON.stringify` does). -/
def stringifyObjEntries : JsObj → List String
  | .nil => []
  | .cons k v t =>
      match v with
      | .undef => stringifyObjEntries t
      | _ => ("\"" ++ escapeJson k ++ "\":" ++ jsonStringify v) :: stringifyObjEntries t
end

/-- Map a function over a JavaScript array (`data.map(...)`). -/
def mapArr (f : JsValue → JsValue) : JsArr → JsArr
  | .nil => .nil
  | .cons x t => .cons (f x) (mapArr f t)

/-- `AnalyticsGenerator.formatData`: top-level arrays are mapped element-wise
through `cleanData`, everything else is cleaned directly; the result is
serialized. -/
def formatData (data : JsValue) : String :=
  match data with
  | .arr xs => jsonStringify (.arr (mapArr cleanData xs))
  | v => jsonStringify (cleanData v)

/- ============ splitIntoChunks (route lines 328–334) and truncateData (431–435) ============ -/

/-- The chunk-size bound (`maxChunkSize`, route line 181). -/
def maxChunkSize : Nat := 25000

/-- Fuelled body of `splitIntoChunks`; the fuel makes the recursion
structural and is irrelevant at or above `text.length`
(`splitIntoChunksGo_stable`).  With `size = 0` the JavaScript loop would
not terminate; the model is only meaningful for `size > 0`. -/
def splitIntoChunksGo (size : Nat) : Nat → List Char → List (List Char)
  | _, [] => []
  | 0, _ => []
  | fuel + 1, text => text.take size :: splitIntoChunksGo size fuel (text.drop size)

/-- `AnalyticsGenerator.splitIntoChunks`: successive slices
`text.slice(i, i + size)` for `i = 0, size, 2·size, …`. -/
def splitIntoChunks (text : List Char) (size : Nat) : List (List Char) :=
  splitIntoChunksGo size text.length text

/-- `AnalyticsGenerator.processLargeData`: format, chunk, and keep only the
first chunk.  (`chunks[0]` of an empty chunk list is JavaScript `undefined`;
`formatData` always yields non-empty text, so the default never fires.) -/
def processLargeData (data : JsValue) : List Char :=
  (splitIntoChunks (formatData data).toList maxChunkSize).headD []

/-- `AnalyticsGenerator.truncateData`: inputs longer than `maxChunkSize` are
cut to `maxChunkSize` characters *and* get a three-character `'...'`
appended. -/
def truncateData (data : List Char) : List Char :=
  if maxChunkSize < data.length then data.take maxChunkSize ++ "...".toList
  else data

/- ============ safeParseResponse (route lines 270–300) ============ -/

/-- The pattern `"```json"` followed by a newline (the greedy match of the
first regex alternative `/```json\n?/`). -/
def fenceTagNl : List Char := "```json\n".toList

/-- The pattern `"```json"` (first alternative without the optional newline). -/
def fenceTag : List Char := "```json".toList

/-- The pattern newline-then-`"```"` (greedy match of `/\n?```/`). -/
def nlFence : List Char := "\n```".toList

/-- The bare pattern `"```"`. -/
def fence : List Char := "```".toList

/-- Fuelled scanner of `text.replace(/```json\n?|\n?```/g, '')`: at each
position the first alternative is tried first (greedily taking the optional
newline), then the second; on no match the character is kept and scanning
advances by one.  Fuel is irrelevant at or above `s.length`
(`stripFencesGo_stable`). -/
def stripFencesGo : Nat → List Char → List Char
  | _, [] => []
  | 0, s => s
  | fuel + 1, c :: rest =>
      if fenceTagNl <+: c :: rest then stripFencesGo fuel ((c :: rest).drop 8)
      else if fenceTag <+: c :: rest then stripFencesGo fuel ((c :: rest).drop 7)
      else if nlFence <+: c :: rest then stripFencesGo fuel ((c :: rest).drop 4)
      else if fence <+: c :: rest then stripFencesGo fuel ((c :: rest).drop 3)
      else c :: stripFencesGo fuel rest

/-- Global removal of Markdown code-fence markers, line 273 of the route. -/
def stripFences (s : List Char) : List Char := stripFencesGo s.length s

/-- JavaScript `\s` for the characters that occur in model replies. -/
def isWsB (c : Char) : Bool := c = ' ' || c = '\t' || c = '\n' || c = '\r'

/-- `.replace(/^[\s\n]*{/, '{')`: drop leading whitespace if it is followed
by an opening brace. -/
def trimLead (s : List Char) : List Char :=
  let t := s.dropWhile isWsB
  if t.head? = some '{' then t else s

/-- `.replace(/}[\s\n]*$/, '}')`: drop trailing whitespace if it is preceded
by a closing brace. -/
def trimTrail (s : List Char) : List Char :=
  let t := (s.reverse.dropWhile isWsB).reverse
  if t.getLast? = some '}' then t else s

/-- The full cleaning pipeline applied before `JSON.parse`. -/
def cleanResponseText (s : List Char) : List Char := trimTrail (trimLead (stripFences s))

/-- The canned degraded payload returned when parsing fails or the parsed
value is not object-like (route lines 287–298). -/
def cannedResponse : JsValue :=
  jobj [("analysis", jobj [("default", jobj
          [("summary", .str "Analysis pending"),
           ("key_points", jarr []),
           ("metrics", jobj []),
           ("recommendations", jarr [])])]),
        ("overall_summary", .str "Analysis pending"),
        ("confidence_score", .num 0)]

/-- The host JSON parser (`JSON.parse`); `none` models a thrown
`SyntaxError`. -/
abbrev JParse := List Char → Option JsValue

/-- `AnalyticsGenerator.safeParseResponse`: clean the text, parse it, check
the result is a (truthy) object, and fall back to `cannedResponse` on any
failure.  Total by construction — the JavaScript `catch` is the `none` /
non-object branch. -/
def safeParseResponse (jparse : JParse) (text : List Char) : JsValue :=
  match jparse (cleanResponseText text) with
  | some parsed => if isObjLikeB parsed then parsed else cannedResponse
  | none => cannedResponse

/-- A model reply wrapped in a Markdown code fence:
`"```json\n" ++ reply ++ "\n```"`. -/
def wrapFence (reply : List Char) : List Char := fenceTagNl ++ (reply ++ nlFence)

/- ============ processMetric (route lines 401–429) ============ -/

/-- Which metric tier a call belongs to. -/
inductive Tier where
  | primary
  | deep

/-- An error raised by a service call: a rejected `generateContent` promise,
or the 10-second per-call timeout winning the race. -/
inductive GenErr where
  | raised (msg : String)
  | timeout

/-- One call to the external generative service, as recorded in the trace. -/
structure CallEv where
  tier : Tier
  metric : String
  attempt : Nat

/-- The external generative service, abstracted as an oracle from metric
name and attempt index to an outcome. -/
abbrev Svc := String → Nat → Except GenErr (List Char)

/-- `AnalyticsGenerator.getFallbackMetric` (route lines 392–399). -/
def getFallbackMetric (metric : String) : JsValue :=
  jobj [("summary", .str ("Analysis pending for " ++ metric)),
        ("key_points", jarr [.str ("Unable to analyze " ++ metric)]),
        ("metrics", jobj []),
        ("recommendations", jarr [.str ("Retry analysis for " ++ metric)])]

/-- The truthiness-guarded read `result.analysis?.[metric]` of route
line 422. -/
def analysisLookup (v : JsValue) (metric : String) : Option JsValue :=
  match objLookup v "analysis" with
  | some a =>
      match objLookup a metric with
      | some r => if truthyB r then some r else none
      | none => none
  | none => none

/-- The retry loop of `AnalyticsGenerator.processMetric`, recursion on the
number of remaining attempts (`remaining = retries - attempt`).  Each
iteration issues one service call (recorded in the trace); a raised error on
the *final* attempt is re-raised (`attempt === retries - 1`, route
line 424), an earlier one falls through (after the 1-second backoff) to the
next attempt; a reply whose parsed payload lacks a truthy
`analysis[metric]` also falls through, and exhausting the loop without
raising returns the fallback metric (route line 428). -/
def processMetricGo (jparse : JParse) (svc : Svc) (metric : String) (tier : Tier) :
    Nat → Nat → List CallEv × Except GenErr JsValue
  | _, 0 => ([], .ok (getFallbackMetric metric))
  | attempt, remaining + 1 =>
      match svc metric attempt with
      | .error e =>
          if remaining = 0 then ([⟨tier, metric, attempt⟩], .error e)
          else
            let rest := processMetricGo jparse svc metric tier (attempt + 1) remaining
            (⟨tier, metric, attempt⟩ :: rest.1, rest.2)
      | .ok text =>
          match analysisLookup (safeParseResponse jparse text) metric with
          | some v => ([⟨tier, metric, attempt⟩], .ok v)
          | none =>
              let rest := processMetricGo jparse svc metric tier (attempt + 1) remaining
              (⟨tier, metric, attempt⟩ :: rest.1, rest.2)

/-- `AnalyticsGenerator.processMetric metric type retries`, returning the
trace of service calls it makes together with its outcome (`.error` models
a `throw` to the caller). -/
def processMetric (jparse : JParse) (svc : Svc) (metric : String) (tier : Tier)
    (retries : Nat) : List CallEv × Except GenErr JsValue :=
  processMetricGo jparse svc metric tier 0 retries

/- ============ generateAnalytics (route lines 196–240) ============ -/

/-- The two metric-name lists of a section (`section.subsections.primary`
and `section.subsections.deep`). -/
structure AnalysisSection where
  primary : List String
  deep : List String

/-- Placeholder entries `key ↦ pre ++ key` used by `getFallbackResponse`. -/
def pendingEntries (pre : String) : List String → JsObj
  | [] => .nil
  | k :: rest => .cons k (.str (pre ++ k)) (pendingEntries pre rest)

/-- `AnalyticsGenerator.getFallbackResponse` (route lines 302–311): note the
keys are `primary` and `deep_metrics`, and the values are bare placeholder
strings, not `MetricResult` objects. -/
def getFallbackResponse (sec : AnalysisSection) : JsValue :=
  .obj (.cons "primary" (.obj (pendingEntries "Analysis pending for " sec.primary))
    (.cons "deep_metrics" (.obj (pendingEntries "Deep analysis pending for " sec.deep))
      .nil))

/-- Did the run reject? -/
def isErrB : Except GenErr JsValue → Bool
  | .error _ => true
  | .ok _ => false

/-- The value of a resolved run (only read on the all-resolved path). -/
def okValue : Except GenErr JsValue → JsValue
  | .ok v => v
  | .error _ => .null

/-- `Object.fromEntries` over `[metric, result]` pairs of resolved runs. -/
def metricEntries : List (String × (List CallEv × Except GenErr JsValue)) → JsObj
  | [] => .nil
  | (m, r) :: rest => .cons m (okValue r.2) (metricEntries rest)

/-- `Object.fromEntries` over `[metric, getFallbackMetric(metric)]` pairs
(the deep-tier bulk fallback of route lines 225–227). -/
def fallbackEntries : List String → JsObj
  | [] => .nil
  | m :: rest => .cons m (getFallbackMetric m) (fallbackEntries rest)

/-- `AnalyticsGenerator.generateAnalytics`.  `modelSet` is the nullness of
`this.model` checked by `validateModel` (a `false` value throws into the
outer `catch`).  The primary tier is awaited first (`await Promise.all` at
route line 202 completes before the deep promises are even created at
line 211); a rejection of any primary run rejects the `Promise.all` and
lands in the outer `catch`, which returns `getFallbackResponse`.  The deep
tier runs only afterwards and only if `section.subsections.deep?.length` is
truthy; its `Promise.all` is raced against a 15-second timer, and *any*
rejection of the group (a deep metric re-raising on its single attempt, or
the timer - timing itself is outside the model) replaces the whole deep
tier with `getFallbackMetric` for every deep name.  The trace lists every
service call in evaluation order. -/
def generateAnalytics (jparse : JParse) (svc : Svc) (modelSet : Bool)
    (sec : AnalysisSection) : List CallEv × JsValue :=
  if !modelSet then ([], getFallbackResponse sec)
  else
    let primRuns := sec.primary.map (fun m => (m, processMetric jparse svc m .primary 2))
    let trace1 := (primRuns.map (fun x => x.2.1)).flatten
    if primRuns.any (fun x => isErrB x.2.2) then
      (trace1, getFallbackResponse sec)
    else if sec.deep.isEmpty then
      (trace1, .obj (.cons "primary" (.obj (metricEntries primRuns))
        (.cons "deep" (.obj .nil) .nil)))
    else
      let deepRuns := sec.deep.map (fun m => (m, processMetric jparse svc m .deep 1))
      let trace2 := (deepRuns.map (fun x => x.2.1)).flatten
      if deepRuns.any (fun x => isErrB x.2.2) then
        (trace1 ++ trace2, .obj (.cons "primary" (.obj (metricEntries primRuns))
          (.cons "deep" (.obj (fallbackEntries sec.deep)) .nil)))
      else
        (trace1 ++ trace2, .obj (.cons "primary" (.obj (metricEntries primRuns))
          (.cons "deep" (.obj (metricEntries deepRuns)) .nil)))

/- ============ FileProcessor (route lines 20–35) ============ -/

/-- `filename.split('.').pop()?.toLowerCase()`: the lower-cased segment
after the last dot (the whole name when there is no dot, the empty string
for a trailing dot). -/
def extensionOf (filename : String) : String :=
  String.mk ((filename.toList.foldl
    (fun acc c => if c = '.' then [] else acc ++ [c]) []).map Char.toLower)

/-- A parsed document, tagged by kind as the parsers tag their results
(`type: 'excel' | 'csv' | 'pdf'`).  Library-produced payloads are carried
opaquely. -/
inductive ParsedDocument where
  | excel (filename : String) (sheets : JsValue) (sheetNames : List String)
  | csv (filename : String) (data : JsValue)
  | pdf (filename : String) (content : String) (pageCount : Nat)

/-- `FileProcessor.processExcel`, with `XLSX.read` + sheet conversion
abstracted as an oracle outcome. -/
def processExcel (libRead : Except String (JsValue × List String)) (filename : String) :
    Except String ParsedDocument :=
  match libRead with
  | .ok (sheets, names) => .ok (.excel filename sheets names)
  | .error msg => .error ("Failed to process Excel file: " ++ msg)

/-- `FileProcessor.processCSV`, with `csv-parse` abstracted as an oracle
outcome. -/
def processCSV (libParse : Except String JsValue) (filename : String) :
    Except String ParsedDocument :=
  match libParse with
  | .ok records => .ok (.csv filename records)
  | .error msg => .error ("Failed to process CSV file: " ++ msg)

/-- `FileProcessor.processPDF`, with `pdf-lib` loading and text extraction
abstracted as an oracle outcome. -/
def processPDF (libLoad : Except String (String × Nat)) (filename : String) :
    Except String ParsedDocument :=
  match libLoad with
  | .ok (content, pages) => .ok (.pdf filename content pages)
  | .error msg => .error ("PDF processing failed: " ++ msg)

/-- `FileProcessor.processFile`: dispatch on the lower-cased extension;
unknown extensions throw `Unsupported file type`. -/
def processFile (xlsxRead : Except String (JsValue × List String))
    (csvRead : Except String JsValue) (pdfLoad : Except String (String × Nat))
    (filename : String) : Except String ParsedDocument :=
  let extension := extensionOf filename
  if extension = "xlsx" ∨ extension = "xls" then processExcel xlsxRead filename
  else if extension = "csv" then processCSV csvRead filename
  else if extension = "pdf" then processPDF pdfLoad filename
  else .error ("Unsupported file type: " ++ extension)

/- ============ processRequest (route lines 462–534) ============ -/

/-- One uploaded file: name, size, and the outcomes of the three parsing
libraries on its bytes. -/
structure UploadFile where
  name : String
  size : Nat
  xlsxRead : Except String (JsValue × List String)
  csvRead : Except String JsValue
  pdfLoad : Except String (String × Nat)

/-- The fixed two-tier section built for every file (route lines 496–502). -/
def fixedSection : AnalysisSection :=
  ⟨["Data Overview", "Key Metrics"], ["Statistical Analysis", "Data Distribution"]⟩

/-- One entry of the `results` collection (timestamp omitted — wall-clock
time is outside the model). -/
structure BatchResult where
  filename : String
  processedData : ParsedDocument
  analytics : JsValue

/-- One entry of the `errors` collection. -/
structure BatchError where
  filename : String
  error : String

/-- The per-file pipeline inside the batch loop: parse, then run analytics
(the model is always set by `setModel`, so `modelSet = true`); a parse
error is the `catch`-recorded failure. -/
def processOneFile (jparse : JParse) (svc : Svc) (f : UploadFile) :
    Except String BatchResult :=
  match processFile f.xlsxRead f.csvRead f.pdfLoad f.name with
  | .error e => .error e
  | .ok doc => .ok ⟨f.name, doc, (generateAnalytics jparse svc true fixedSection).2⟩

/-- The response of `processRequest`. -/
inductive RequestResponse where
  | badRequest (error : String)
  | success (results : List BatchResult) (errors : List BatchError)
      (totalFiles successfulFiles failedFiles : Nat)

/-- The 50 MB single-file ceiling. -/
def sizeLimit : Nat := 50 * 1024 * 1024

/-- One iteration of the batch loop: the file's outcome is appended to
`results` on success and to `errors` (with its message) on a caught
failure; the loop then continues with the next file. -/
def batchStep (jparse : JParse) (svc : Svc)
    (acc : List BatchResult × List BatchError) (f : UploadFile) :
    List BatchResult × List BatchError :=
  match processOneFile jparse svc f with
  | .ok r => (acc.1 ++ [r], acc.2)
  | .error e => (acc.1, acc.2 ++ [⟨f.name, e⟩])

/-- `processRequest`: empty-batch and size pre-checks, then a sequential
loop appending each file's outcome to `results` or `errors`. -/
def processRequest (jparse : JParse) (svc : Svc) (files : List UploadFile) :
    RequestResponse :=
  if files.isEmpty then .badRequest "No files provided"
  else if files.any (fun f => sizeLimit < f.size) then
    .badRequest "File size exceeds 50MB limit"
  else
    let outcome := files.foldl (batchStep jparse svc) ([], [])
    .success outcome.1 outcome.2 files.length outcome.1.length outcome.2.length

/-- The file's contribution to `results`, if it succeeds. -/
def fileSuccess (jparse : JParse) (svc : Svc) (f : UploadFile) : Option BatchResult :=
  (processOneFile jparse svc f).toOption

/-- The file's contribution to `errors`, if it fails. -/
def fileFailure (jparse : JParse) (svc : Svc) (f : UploadFile) : Option BatchError :=
  match processOneFile jparse svc f with
  | .error e => some ⟨f.name, e⟩
  | .ok _ => none

/- ============ concrete fixtures for witnesses and counterexamples ============ -/

/-- A JSON parser that always fails. -/
def jpNone : JParse := fun _ => none

/-- A service that always raises. -/
def svcErr : Svc := fun _ _ => .error (.raised "network error")

/-- A one-primary / one-deep section. -/
def sec1 : AnalysisSection := ⟨["p"], ["d"]⟩

/-- A reply text recognized by `jpOne`. -/
def okReply : List Char := "R1".toList

/-- A parsed payload carrying analysis entries for metrics `p` and `d1`. -/
def payload1 : JsValue :=
  jobj [("analysis", jobj [("p", jobj [("summary", .str "ok")]),
                           ("d1", jobj [("summary", .str "ok")])])]

/-- A parser that recognizes exactly `okReply`. -/
def jpOne : JParse := fun s => if s = okReply then some payload1 else none

/-- A service that raises for metric `d2` and replies `okReply` otherwise. -/
def svcD2 : Svc := fun m _ => if m = "d2" then .error .timeout else .ok okReply

/-- A one-primary / two-deep section where only `d2`'s calls fail. -/
def sec2 : AnalysisSection := ⟨["p"], ["d1", "d2"]⟩

/-- An uploaded CSV file that parses. -/
def fileA : UploadFile := ⟨"a.csv", 10, .error "no workbook", .ok (jarr []), .error "no pdf"⟩

/-- An uploaded file with an unsupported extension. -/
def fileB : UploadFile := ⟨"b.txt", 10, .error "no workbook", .error "not csv", .error "no pdf"⟩

/-- A second uploaded CSV file that parses. -/
def fileC : UploadFile := ⟨"c.csv", 10, .error "no workbook", .ok (jarr []), .error "no pdf"⟩

/- ===================== Theorems ===================== -/

/- ---- helper lemmas for cleanData (claim C6) ---- -/

lemma cleanData_objLike_shape {v : JsValue} (h : isObjLikeB v = true) :
    ∃ l, cleanData v = .obj l := by
  cases v <;> simp_all [isObjLikeB, cleanData]

mutual
theorem cleanOk_cleanData : ∀ v, cleanOk (cleanData v) = true
  | .null => rfl
  | .undef => rfl
  | .bool _ => rfl
  | .num _ => rfl
  | .str _ => rfl
  | .arr xs => cleanOkObj_cleanArrGo 0 xs
  | .obj kvs => cleanOkObj_cleanObjGo kvs
theorem cleanOkObj_cleanArrGo : ∀ (i : Nat) (xs : JsArr), cleanOkObj (cleanArrGo i xs) = true
  | _, .nil => rfl
  | i, .cons x t => by
      by_cases hn : nullishB x = true
      · simp [cleanArrGo, hn, cleanOkObj_cleanArrGo (i + 1) t]
      · by_cases ho : isObjLikeB x = true
        · have hnn : nullishB (cleanData x) = false := by
            rcases cleanData_objLike_shape ho with ⟨l, hl⟩
            rw [hl]; rfl
          simp [cleanArrGo, hn, ho, cleanOkObj, hnn, cleanOk_cleanData x,
            cleanOkObj_cleanArrGo (i + 1) t]
        · have hscal : cleanOk x = true := by
            cases x <;> simp_all [isObjLikeB, cleanOk]
          simp [cleanArrGo, hn, ho, cleanOkObj, hscal, cleanOkObj_cleanArrGo (i + 1) t]
theorem cleanOkObj_cleanObjGo : ∀ (kvs : JsObj), cleanOkObj (cleanObjGo kvs) = true
  | .nil => rfl
  | .cons k v t => by
      by_cases hn : nullishB v = true
      · simp [cleanObjGo, hn, cleanOkObj_cleanObjGo t]
      · by_cases ho : isObjLikeB v = true
        · have hnn : nullishB (cleanData v) = false := by
            rcases cleanData_objLike_shape ho with ⟨l, hl⟩
            rw [hl]; rfl
          simp [cleanObjGo, hn, ho, cleanOkObj, hnn, cleanOk_cleanData v,
            cleanOkObj_cleanObjGo t]
        · have hscal : cleanOk v = true := by
            cases v <;> simp_all [isObjLikeB, cleanOk]
          simp [cleanObjGo, hn, ho, cleanOkObj, hscal, cleanOkObj_cleanObjGo t]
end

/-- **C6** (counterexample).  The claim says `cleanData` maps arrays
element-wise, an array input yielding an array of cleaned elements.  In the
code an array has `typeof === 'object'`, so it takes the `Object.entries`
path: the array `[1]` is rebuilt as the plain object `{"0": 1}`, not as an
array. -/
theorem claim_C6_cex :
    isArrB (cleanData (jarr [.num 1])) = false
    ∧ cleanData (jarr [.num 1]) = jobj [("0", .num 1)] := ⟨rfl, rfl⟩

/-- **C6** (amended).  `cleanData` returns non-object scalars unchanged,
removes every `null`/`undefined`-valued field at every nesting depth, and
turns any object-like input — including an array — into a plain object
(an array is rebuilt as an object keyed by the elements' decimal indices;
only `formatData` maps a top-level array element-wise). -/
theorem claim_C6 : ∀ (v : JsValue),
    (isScalarB v = true → cleanData v = v)
    ∧ cleanOk (cleanData v) = true
    ∧ (isObjLikeB v = true → ∃ l, cleanData v = .obj l) := by
  intro v
  refine ⟨?_, cleanOk_cleanData v, fun h => cleanData_objLike_shape h⟩
  intro h
  cases v <;> simp_all [isScalarB, isObjLikeB, cleanData]

/-- **C6** (witness): the amended theorem evaluated at a scalar and at an
object with a `null` field. -/
theorem claim_C6_wit :
    cleanData (.num 3) = .num 3
    ∧ cleanOk (cleanData (jobj [("a", JsValue.null), ("b", .num 1)])) = true :=
  ⟨(claim_C6 (.num 3)).1 rfl, (claim_C6 (jobj [("a", JsValue.null), ("b", .num 1)])).2.1⟩

/- ---- claim C5: truncateData ---- -/

/-- **C5** (counterexample).  The claim bounds `truncateData`'s output by
`maxChunkSize = 25000`; on an input of length 25001 the code returns the
25000-character slice *plus* a three-character `'...'`, i.e. 25003
characters. -/
theorem claim_C5_cex :
    (truncateData (List.replicate 25001 'a')).length = 25003
    ∧ ¬ (truncateData (List.replicate 25001 'a')).length ≤ maxChunkSize := by
  have hlen : (truncateData (List.replicate 25001 'a')).length = 25003 := by
    unfold truncateData
    rw [if_pos (by rw [List.length_replicate]; norm_num [maxChunkSize])]
    rw [List.length_append, List.length_take, List.length_replicate]
    norm_num [maxChunkSize]
  refine ⟨hlen, ?_⟩
  rw [hlen]
  norm_num [maxChunkSize]

/-- **C5** (amended).  `truncateData` returns at most `maxChunkSize + 3`
characters (the bound plus the appended ellipsis), and returns inputs
within the bound unchanged. -/
theorem claim_C5 : ∀ (data : List Char),
    (truncateData data).length ≤ maxChunkSize + 3
    ∧ (data.length ≤ maxChunkSize → truncateData data = data) := by
  intro data
  unfold truncateData
  by_cases h : maxChunkSize < data.length
  · rw [if_pos h]
    constructor
    · rw [List.length_append, List.length_take]
      have h3 : ("...".toList).length = 3 := rfl
      rw [h3]
      omega
    · intro hle
      omega
  · rw [if_neg h]
    exact ⟨by omega, fun _ => rfl⟩

/-- **C5** (witness): the amended theorem evaluated at a short input. -/
theorem claim_C5_wit :
    (truncateData "ok".toList).length ≤ maxChunkSize + 3
    ∧ truncateData "ok".toList = "ok".toList :=
  ⟨(claim_C5 "ok".toList).1, (claim_C5 "ok".toList).2 (by simp [maxChunkSize])⟩

/- ---- claim C4: splitIntoChunks ---- -/

lemma splitIntoChunksGo_stable {size : Nat} (hs : 0 < size) :
    ∀ (f g : Nat) (text : List Char), text.length ≤ f → text.length ≤ g →
      splitIntoChunksGo size f text = splitIntoChunksGo size g text := by
  intro f
  induction f with
  | zero =>
      intro g text hf _
      have : text = [] := List.eq_nil_of_length_eq_zero (by omega)
      subst this
      cases g <;> rfl
  | succ f ih =>
      intro g text hf hg
      cases text with
      | nil => cases g <;> rfl
      | cons c rest =>
          cases g with
          | zero => simp at hg
          | succ g =>
              simp only [splitIntoChunksGo]
              congr 1
              apply ih
              · simp only [List.length_drop] at *
                simp at hf ⊢
                omega
              · simp only [List.length_drop] at *
                simp at hg ⊢
                omega

lemma splitIntoChunks_eq (text : List Char) (size : Nat) (hs : 0 < size) :
    splitIntoChunks text size =
      if text = [] then [] else text.take size :: splitIntoChunks (text.drop size) size := by
  cases text with
  | nil => rfl
  | cons c rest =>
      rw [if_neg (by simp)]
      show splitIntoChunksGo size (rest.length + 1) (c :: rest) = _
      simp only [splitIntoChunksGo]
      congr 1
      apply splitIntoChunksGo_stable hs
      · simp; omega
      · simp

/-- **C4**.  For every text and every chunk size `N > 0`, `splitIntoChunks`
produces exactly `⌈L/N⌉` chunks, each of length at most `N`, and their
concatenation is the original text. -/
theorem claim_C4 : ∀ (text : List Char) (size : Nat), 0 < size →
    (splitIntoChunks text size).length = (text.length + size - 1) / size
    ∧ (∀ c ∈ splitIntoChunks text size, c.length ≤ size)
    ∧ (splitIntoChunks text size).flatten = text := by
  intro text size hs
  have main : ∀ (n : Nat) (t : List Char), t.length ≤ n →
      (splitIntoChunks t size).length = (t.length + size - 1) / size
      ∧ (∀ c ∈ splitIntoChunks t size, c.length ≤ size)
      ∧ (splitIntoChunks t size).flatten = t := by
    intro n
    induction n with
    | zero =>
        intro t ht
        have : t = [] := List.eq_nil_of_length_eq_zero (by omega)
        subst this
        refine ⟨?_, by simp [splitIntoChunks, splitIntoChunksGo], by rfl⟩
        have hz : (size - 1) / size = 0 := Nat.div_eq_of_lt (by omega)
        simp [splitIntoChunks, splitIntoChunksGo, hz]
    | succ n ih =>
        intro t ht
        by_cases hnil : t = []
        · subst hnil
          refine ⟨?_, by simp [splitIntoChunks, splitIntoChunksGo], by rfl⟩
          have hz : (size - 1) / size = 0 := Nat.div_eq_of_lt (by omega)
          simp [splitIntoChunks, splitIntoChunksGo, hz]
        · have hL : 0 < t.length := List.length_pos.mpr hnil
          rw [splitIntoChunks_eq t size hs, if_neg hnil]
          have hdrop : (t.drop size).length ≤ n := by
            simp only [List.length_drop]
            omega
          obtain ⟨ihlen, ihmem, ihjoin⟩ := ih (t.drop size) hdrop
          refine ⟨?_, ?_, ?_⟩
          · simp only [List.length_cons, ihlen, List.length_drop]
            have key : (t.length - size + size - 1) / size = (t.length - 1) / size := by
              by_cases hle : t.length ≤ size
              · have h1 : t.length - size = 0 := by omega
                rw [h1]
                rw [Nat.div_eq_of_lt (by omega), Nat.div_eq_of_lt (by omega)]
              · congr 1
                omega
            rw [key]
            have h2 : t.length + size - 1 = (t.length - 1) + size := by omega
            rw [h2, Nat.add_div_right _ hs]
          · intro c hc
            rcases List.mem_cons.mp hc with rfl | hc'
            · exact List.length_take_le size t
            · exact ihmem c hc'
          · simp only [List.flatten_cons, ihjoin, List.take_append_drop]
  exact main text.length text (le_refl _)

/-- **C4** (witness): the theorem evaluated at the 5-character text
`"abcde"` with chunk size 2, together with the concrete chunk list. -/
theorem claim_C4_wit :
    ((splitIntoChunks "abcde".toList 2).length = ("abcde".toList.length + 2 - 1) / 2
      ∧ (∀ c ∈ splitIntoChunks "abcde".toList 2, c.length ≤ 2)
      ∧ (splitIntoChunks "abcde".toList 2).flatten = "abcde".toList)
    ∧ splitIntoChunks "abcde".toList 2 = ["ab".toList, "cd".toList, "e".toList] :=
  ⟨claim_C4 "abcde".toList 2 (by norm_num), rfl⟩

/- ---- helper lemmas for stripFences / safeParseResponse (claim C7) ---- -/

lemma fenceTagNl_len : fenceTagNl.length = 8 := rfl

lemma fenceTag_len : fenceTag.length = 7 := rfl

lemma nlFence_len : nlFence.length = 4 := rfl

lemma fence_len : fence.length = 3 := rfl

lemma stripFencesGo_nil (f : Nat) : stripFencesGo f [] = [] := by
  cases f <;> rfl

lemma stripFencesGo_stable : ∀ (f g : Nat) (s : List Char),
    s.length ≤ f → s.length ≤ g → stripFencesGo f s = stripFencesGo g s := by
  intro f
  induction f with
  | zero =>
      intro g s hf _
      have : s = [] := List.eq_nil_of_length_eq_zero (by omega)
      subst this
      rw [stripFencesGo_nil, stripFencesGo_nil]
  | succ f ih =>
      intro g s hf hg
      cases s with
      | nil => rw [stripFencesGo_nil, stripFencesGo_nil]
      | cons c rest =>
          cases g with
          | zero => simp at hg
          | succ g =>
              simp only [List.length_cons] at hf hg
              simp only [stripFencesGo]
              split_ifs with h1 h2 h3 h4
              · exact ih g _ (by simp; omega) (by simp; omega)
              · exact ih g _ (by simp; omega) (by simp; omega)
              · exact ih g _ (by simp; omega) (by simp; omega)
              · exact ih g _ (by simp; omega) (by simp; omega)
              · exact congrArg (c :: ·) (ih g rest (by omega) (by omega))

lemma stripFences_step (s : List Char) (hs : s ≠ []) :
    stripFences s =
      if fenceTagNl <+: s then stripFences (s.drop 8)
      else if fenceTag <+: s then stripFences (s.drop 7)
      else if nlFence <+: s then stripFences (s.drop 4)
      else if fence <+: s then stripFences (s.drop 3)
      else s.headI :: stripFences s.tail := by
  rcases s with _ | ⟨c, rest⟩
  · exact absurd rfl hs
  · show stripFencesGo (rest.length + 1) (c :: rest) = _
    simp only [stripFencesGo, List.headI, List.tail_cons]
    split_ifs with h1 h2 h3 h4
    · exact stripFencesGo_stable _ _ _
        (by simp only [List.length_drop, List.length_cons]; omega) (le_refl _)
    · exact stripFencesGo_stable _ _ _
        (by simp only [List.length_drop, List.length_cons]; omega) (le_refl _)
    · exact stripFencesGo_stable _ _ _
        (by simp only [List.length_drop, List.length_cons]; omega) (le_refl _)
    · exact stripFencesGo_stable _ _ _
        (by simp only [List.length_drop, List.length_cons]; omega) (le_refl _)
    · rfl

lemma prefix_split {p r t : List Char} (h : p <+: r ++ t) : p <+: r ∨ r <+: p := by
  rcases le_or_lt p.length r.length with hle | hlt
  · left
    have hp := List.prefix_iff_eq_take.mp h
    rw [List.take_append_eq_append_take, Nat.sub_eq_zero_of_le hle, List.take_zero,
      List.append_nil] at hp
    rw [hp]
    exact List.take_prefix _ _
  · right
    have hp := List.prefix_iff_eq_take.mp h
    rw [List.take_append_eq_append_take, List.take_of_length_le (by omega)] at hp
    exact ⟨_, hp.symm⟩

lemma prefix_append_drop {p r t : List Char} (hrp : r <+: p) (h : p <+: r ++ t) :
    p.drop r.length <+: t := by
  rcases hrp with ⟨u, rfl⟩
  rw [List.drop_left]
  exact (List.prefix_append_right_inj r).mp h

lemma short_prefix_cases {p r t : List Char} (hx : p <+: r ++ t) (hnp : ¬ p <+: r) :
    r <+: p ∧ r = p.take r.length ∧ p.drop r.length <+: t := by
  rcases prefix_split hx with h | h
  · exact absurd h hnp
  · exact ⟨h, List.prefix_iff_eq_take.mp h, prefix_append_drop h hx⟩

lemma append_nlFence_ne_nil (r : List Char) : r ++ nlFence ≠ [] := by
  intro h
  have := congrArg List.length h
  simp [nlFence] at this

/-- Removing fence markers commutes with appending the closing fence
`"\n```"`: the scanner consumes the appended suffix exactly, for every
text. -/
lemma stripFences_append_nlFence : ∀ (r : List Char), stripFences (r ++ nlFence) = stripFences r := by
  have main : ∀ (n : Nat) (r : List Char), r.length ≤ n →
      stripFences (r ++ nlFence) = stripFences r := by
    intro n
    induction n with
    | zero =>
        intro r hr
        have : r = [] := List.eq_nil_of_length_eq_zero (by omega)
        subst this
        rfl
    | succ n ih =>
        intro r hr
        rcases r with _ | ⟨c, rest⟩
        · rfl
        · have hlen : (c :: rest).length = rest.length + 1 := by simp
          have hne1 := append_nlFence_ne_nil (c :: rest)
          have hner : (c :: rest) ≠ [] := by simp
          by_cases h1 : fenceTagNl <+: c :: rest
          · have hge : 8 ≤ (c :: rest).length := by
              have := h1.length_le; rw [fenceTagNl_len] at this; omega
            rw [stripFences_step _ hne1, if_pos (h1.trans (List.prefix_append _ _)),
              stripFences_step _ hner, if_pos h1,
              List.drop_append_of_le_length (by omega)]
            exact ih _ (by simp at hr ⊢; omega)
          · by_cases h2 : fenceTag <+: c :: rest
            · have hge : 7 ≤ (c :: rest).length := by
                have := h2.length_le; rw [fenceTag_len] at this; omega
              by_cases hlen7 : (c :: rest).length = 7
              · have hre : c :: rest = fenceTag :=
                  (h2.eq_of_length (by rw [fenceTag_len, hlen7])).symm
                rw [hre]
                rfl
              · have hge8 : 8 ≤ (c :: rest).length := by omega
                have hn1 : ¬ fenceTagNl <+: (c :: rest) ++ nlFence := by
                  intro hx
                  have hp := List.prefix_iff_eq_take.mp hx
                  rw [fenceTagNl_len, List.take_append_eq_append_take,
                    Nat.sub_eq_zero_of_le (by omega), List.take_zero, List.append_nil] at hp
                  exact h1 (hp ▸ List.take_prefix 8 (c :: rest))
                rw [stripFences_step _ hne1, if_neg hn1,
                  if_pos (h2.trans (List.prefix_append _ _)),
                  stripFences_step _ hner, if_neg h1, if_pos h2,
                  List.drop_append_of_le_length (by omega)]
                exact ih _ (by simp at hr ⊢; omega)
            · by_cases h3 : nlFence <+: c :: rest
              · have hge : 4 ≤ (c :: rest).length := by
                  have := h3.length_le; rw [nlFence_len] at this; omega
                have hn1 : ¬ fenceTagNl <+: (c :: rest) ++ nlFence := by
                  intro hx
                  rcases prefix_split hx with hx' | hx'
                  · exact h1 hx'
                  · exact absurd (h3.trans hx') (by decide)
                have hn2 : ¬ fenceTag <+: (c :: rest) ++ nlFence := by
                  intro hx
                  rcases prefix_split hx with hx' | hx'
                  · exact h2 hx'
                  · exact absurd (h3.trans hx') (by decide)
                rw [stripFences_step _ hne1, if_neg hn1, if_neg hn2,
                  if_pos (h3.trans (List.prefix_append _ _)),
                  stripFences_step _ hner, if_neg h1, if_neg h2, if_pos h3,
                  List.drop_append_of_le_length (by omega)]
                exact ih _ (by simp at hr ⊢; omega)
              · by_cases h4 : fence <+: c :: rest
                · have hge : 3 ≤ (c :: rest).length := by
                    have := h4.length_le; rw [fence_len] at this; omega
                  have hn1 : ¬ fenceTagNl <+: (c :: rest) ++ nlFence := by
                    intro hx
                    obtain ⟨hrp, hkeq, hdrop⟩ := short_prefix_cases hx h1
                    have hub : (c :: rest).length ≤ 8 := by
                      have := hrp.length_le; rw [fenceTagNl_len] at this; omega
                    have hcase : (c :: rest).length = 3 ∨ (c :: rest).length = 4
                        ∨ (c :: rest).length = 5 ∨ (c :: rest).length = 6
                        ∨ (c :: rest).length = 7 ∨ (c :: rest).length = 8 := by omega
                    rcases hcase with hk | hk | hk | hk | hk | hk <;> rw [hk] at hkeq hdrop
                    · exact absurd hdrop (by decide)
                    · exact absurd hdrop (by decide)
                    · exact absurd hdrop (by decide)
                    · exact absurd hdrop (by decide)
                    · exact h2 (by rw [hkeq]; decide)
                    · exact h1 (by rw [hkeq]; decide)
                  have hn2 : ¬ fenceTag <+: (c :: rest) ++ nlFence := by
                    intro hx
                    obtain ⟨hrp, hkeq, hdrop⟩ := short_prefix_cases hx h2
                    have hub : (c :: rest).length ≤ 7 := by
                      have := hrp.length_le; rw [fenceTag_len] at this; omega
                    have hcase : (c :: rest).length = 3 ∨ (c :: rest).length = 4
                        ∨ (c :: rest).length = 5 ∨ (c :: rest).length = 6
                        ∨ (c :: rest).length = 7 := by omega
                    rcases hcase with hk | hk | hk | hk | hk <;> rw [hk] at hkeq hdrop
                    · exact absurd hdrop (by decide)
                    · exact absurd hdrop (by decide)
                    · exact absurd hdrop (by decide)
                    · exact absurd hdrop (by decide)
                    · exact h2 (by rw [hkeq]; decide)
                  have hn3 : ¬ nlFence <+: (c :: rest) ++ nlFence := by
                    intro hx
                    rcases prefix_split hx with hx' | hx'
                    · exact h3 hx'
                    · exact absurd (h4.trans hx') (by decide)
                  rw [stripFences_step _ hne1, if_neg hn1, if_neg hn2, if_neg hn3,
                    if_pos (h4.trans (List.prefix_append _ _)),
                    stripFences_step _ hner, if_neg h1, if_neg h2, if_neg h3, if_pos h4,
                    List.drop_append_of_le_length (by omega)]
                  exact ih _ (by simp at hr ⊢; omega)
                · have hn1 : ¬ fenceTagNl <+: (c :: rest) ++ nlFence := by
                    intro hx
                    obtain ⟨hrp, hkeq, hdrop⟩ := short_prefix_cases hx h1
                    have hub : (c :: rest).length ≤ 8 := by
                      have := hrp.length_le; rw [fenceTagNl_len] at this; omega
                    have hcase : (c :: rest).length = 1 ∨ (c :: rest).length = 2
                        ∨ (c :: rest).length = 3 ∨ (c :: rest).length = 4
                        ∨ (c :: rest).length = 5 ∨ (c :: rest).length = 6
                        ∨ (c :: rest).length = 7 ∨ (c :: rest).length = 8 := by omega
                    rcases hcase with hk | hk | hk | hk | hk | hk | hk | hk <;>
                      rw [hk] at hkeq hdrop
                    · exact absurd hdrop (by decide)
                    · exact absurd hdrop (by decide)
                    · exact h4 (by rw [hkeq]; decide)
                    · exact h4 (by rw [hkeq]; decide)
                    · exact h4 (by rw [hkeq]; decide)
                    · exact h4 (by rw [hkeq]; decide)
                    · exact h4 (by rw [hkeq]; decide)
                    · exact h4 (by rw [hkeq]; decide)
                  have hn2 : ¬ fenceTag <+: (c :: rest) ++ nlFence := by
                    intro hx
                    obtain ⟨hrp, hkeq, hdrop⟩ := short_prefix_cases hx h2
                    have hub : (c :: rest).length ≤ 7 := by
                      have := hrp.length_le; rw [fenceTag_len] at this; omega
                    have hcase : (c :: rest).length = 1 ∨ (c :: rest).length = 2
                        ∨ (c :: rest).length = 3 ∨ (c :: rest).length = 4
                        ∨ (c :: rest).length = 5 ∨ (c :: rest).length = 6
                        ∨ (c :: rest).length = 7 := by omega
                    rcases hcase with hk | hk | hk | hk | hk | hk | hk <;>
                      rw [hk] at hkeq hdrop
                    · exact absurd hdrop (by decide)
                    · exact absurd hdrop (by decide)
                    · exact h4 (by rw [hkeq]; decide)
                    · exact h4 (by rw [hkeq]; decide)
                    · exact h4 (by rw [hkeq]; decide)
                    · exact h4 (by rw [hkeq]; decide)
                    · exact h4 (by rw [hkeq]; decide)
                  have hn3 : ¬ nlFence <+: (c :: rest) ++ nlFence := by
                    intro hx
                    obtain ⟨hrp, hkeq, hdrop⟩ := short_prefix_cases hx h3
                    have hub : (c :: rest).length ≤ 4 := by
                      have := hrp.length_le; rw [nlFence_len] at this; omega
                    have hcase : (c :: rest).length = 1 ∨ (c :: rest).length = 2
                        ∨ (c :: rest).length = 3 ∨ (c :: rest).length = 4 := by omega
                    rcases hcase with hk | hk | hk | hk <;> rw [hk] at hkeq hdrop
                    · exact absurd hdrop (by decide)
                    · exact absurd hdrop (by decide)
                    · exact absurd hdrop (by decide)
                    · exact h3 (by rw [hkeq]; decide)
                  have hn4 : ¬ fence <+: (c :: rest) ++ nlFence := by
                    intro hx
                    obtain ⟨hrp, hkeq, hdrop⟩ := short_prefix_cases hx h4
                    have hub : (c :: rest).length ≤ 3 := by
                      have := hrp.length_le; rw [fence_len] at this; omega
                    have hcase : (c :: rest).length = 1 ∨ (c :: rest).length = 2
                        ∨ (c :: rest).length = 3 := by omega
                    rcases hcase with hk | hk | hk <;> rw [hk] at hkeq hdrop
                    · exact absurd hdrop (by decide)
                    · exact absurd hdrop (by decide)
                    · exact h4 (by rw [hkeq]; decide)
                  rw [stripFences_step _ hne1, if_neg hn1, if_neg hn2, if_neg hn3, if_neg hn4,
                    stripFences_step _ hner, if_neg h1, if_neg h2, if_neg h3, if_neg h4]
                  simp only [List.cons_append, List.headI, List.tail_cons]
                  exact congrArg (c :: ·) (ih rest (by simp at hr; omega))
  exact fun r => main r.length r (le_refl _)

/-- Fence-stripping consumes an added `"```json\n" … "\n```"` wrapper
exactly. -/
lemma stripFences_wrap (r : List Char) : stripFences (wrapFence r) = stripFences r := by
  unfold wrapFence
  have hne : fenceTagNl ++ (r ++ nlFence) ≠ [] := by
    intro h
    have := congrArg List.length h
    simp [fenceTagNl] at this
  rw [stripFences_step _ hne, if_pos (List.prefix_append _ _)]
  have hdrop : (fenceTagNl ++ (r ++ nlFence)).drop 8 = r ++ nlFence := by
    have h8 : (8 : Nat) = fenceTagNl.length := rfl
    rw [h8, List.drop_left]
  rw [hdrop, stripFences_append_nlFence r]

/-- **C7**.  Wrapping any model reply in a Markdown code fence does not
change the result of `safeParseResponse` (in particular a fence-wrapped
valid JSON object parses to the same object as the unwrapped reply); and a
reply that is not parseable as JSON even after the fence-stripping/trimming
pipeline (a fence-wrapped object is itself not valid JSON, so the claim's
non-parseable half must be read after cleaning) yields `cannedResponse`.
`safeParseResponse` is a total function of the embedding — the JavaScript
`catch` is its `none`/non-object branch — so it never raises. -/
theorem claim_C7 :
    (∀ (jparse : JParse) (reply : List Char),
        safeParseResponse jparse (wrapFence reply) = safeParseResponse jparse reply)
    ∧ (∀ (jparse : JParse) (reply : List Char),
        jparse (cleanResponseText reply) = none →
        safeParseResponse jparse reply = cannedResponse) := by
  constructor
  · intro jparse reply
    unfold safeParseResponse cleanResponseText
    rw [stripFences_wrap]
  · intro jparse reply h
    unfold safeParseResponse
    rw [h]

/-- **C7** (witness): the equivalence at a concrete reply and the canned
fallback for a parser that rejects it. -/
theorem claim_C7_wit :
    safeParseResponse jpNone (wrapFence "xy".toList) = safeParseResponse jpNone "xy".toList
    ∧ safeParseResponse jpNone "xy".toList = cannedResponse :=
  ⟨claim_C7.1 jpNone "xy".toList, claim_C7.2 jpNone "xy".toList rfl⟩

/- ---- helper lemmas for processMetric (claims C1, C3, C10) ---- -/

lemma processMetricGo_allErr (jparse : JParse) (svc : Svc) (metric : String) (tier : Tier) :
    ∀ (rem attempt : Nat), 0 < rem →
      (∀ a, attempt ≤ a → a < attempt + rem → ∃ e, svc metric a = .error e) →
      (processMetricGo jparse svc metric tier attempt rem).1.length = rem
      ∧ ∃ e, svc metric (attempt + rem - 1) = .error e
          ∧ (processMetricGo jparse svc metric tier attempt rem).2 = .error e := by
  intro rem
  induction rem with
  | zero => intro attempt h; omega
  | succ rem ih =>
      intro attempt _ hall
      obtain ⟨e, he⟩ := hall attempt (le_refl _) (by omega)
      by_cases hrem : rem = 0
      · subst hrem
        refine ⟨by simp [processMetricGo, he], e, ?_, by simp [processMetricGo, he]⟩
        have hidx : attempt + 1 - 1 = attempt := by omega
        rw [hidx]
        exact he
      · have hrem' : 0 < rem := Nat.pos_of_ne_zero hrem
        obtain ⟨ihlen, e', he', ihres⟩ :=
          ih (attempt + 1) hrem' (fun a ha1 ha2 => hall a (by omega) (by omega))
      
        refine ⟨by simp [processMetricGo, he, hrem, ihlen], e', ?_, ?_⟩
        · have hidx : attempt + 1 + rem - 1 = attempt + (rem + 1) - 1 := by omega
          rw [← hidx]
          exact he'
        · simp only [processMetricGo, he, if_neg hrem]
          exact ihres

lemma processMetricGo_tier (jparse : JParse) (svc : Svc) (metric : String) (tier : Tier) :
    ∀ (rem attempt : Nat),
      ∀ e ∈ (processMetricGo jparse svc metric tier attempt rem).1, e.tier = tier := by
  intro rem
  induction rem with
  | zero =>
      intro attempt e he
      simp [processMetricGo] at he
  | succ rem ih =>
      intro attempt e he
      cases hsvc : svc metric attempt with
      | error err =>
          by_cases hrem : rem = 0
          · subst hrem
            simp only [processMetricGo, hsvc] at he
            simp at he
            subst he
            rfl
          · simp only [processMetricGo, hsvc, if_neg hrem] at he
            rcases List.mem_cons.mp he with rfl | h'
            · rfl
            · exact ih (attempt + 1) e h'
      | ok text =>
          cases halk : analysisLookup (safeParseResponse jparse text) metric with
          | none =>
              simp only [processMetricGo, hsvc, halk] at he
              rcases List.mem_cons.mp he with rfl | h'
              · rfl
              · exact ih (attempt + 1) e h'
          | some v =>
              simp only [processMetricGo, hsvc, halk] at he
              simp at he
              subst he
              rfl

lemma mapTrace_tier (jparse : JParse) (svc : Svc) (tier : Tier) (retries : Nat)
    (l : List String) :
    ∀ e ∈ ((l.map (fun m => (m, processMetric jparse svc m tier retries))).map
        (fun x => x.2.1)).flatten, e.tier = tier := by
  intro e he
  rw [List.mem_flatten] at he
  obtain ⟨tl, htl, hetl⟩ := he
  rw [List.mem_map] at htl
  obtain ⟨x, hx, rfl⟩ := htl
  rw [List.mem_map] at hx
  obtain ⟨m, _, rfl⟩ := hx
  exact processMetricGo_tier jparse svc m tier retries 0 e hetl

/- ---- claim C1: the retry loop on an always-raising service ---- -/

/-- **C1** (counterexample).  With a service whose every call raises,
`processMetric` with `maxAttempts = 2` (the primary tier) makes two calls
and then *re-raises the last error* to its caller (route line 424,
`if (attempt === retries - 1) throw error`): it does not return the
fallback `MetricResult`. -/
theorem claim_C1_cex :
    (processMetric jpNone svcErr "Data Overview" .primary 2).2 = .error (.raised "network error")
    ∧ (processMetric jpNone svcErr "Data Overview" .primary 2).1.length = 2
    ∧ (processMetric jpNone svcErr "Data Overview" .primary 2).2
        ≠ .ok (getFallbackMetric "Data Overview") := by
  refine ⟨rfl, rfl, ?_⟩
  intro h
  have h2 : (processMetric jpNone svcErr "Data Overview" .primary 2).2
      = .error (.raised "network error") := rfl
  rw [h2] at h
  exact Except.noConfusion h

/-- **C1** (amended).  When every service call raises, `processMetric`
makes exactly `maxAttempts` attempts (one service call each) and then
raises the last error to its caller, rather than returning a fallback
`MetricResult` (the fallback return is reached only when attempts finish
without raising but without a usable metric payload). -/
theorem claim_C1 : ∀ (jparse : JParse) (svc : Svc) (metric : String) (tier : Tier)
    (retries : Nat), 0 < retries →
    (∀ a, a < retries → ∃ e, svc metric a = .error e) →
    (processMetric jparse svc metric tier retries).1.length = retries
    ∧ ∃ e, svc metric (retries - 1) = .error e
        ∧ (processMetric jparse svc metric tier retries).2 = .error e := by
  intro jparse svc metric tier retries hpos hall
  have h := processMetricGo_allErr jparse svc metric tier retries 0 hpos
    (fun a _ ha2 => hall a (by omega))
  simpa [processMetric] using h

/-- **C1** (witness): the amended theorem at an always-raising service with
the primary-tier budget of 2 attempts. -/
theorem claim_C1_wit :
    (processMetric jpNone svcErr "m" .primary 2).1.length = 2
    ∧ ∃ e, svcErr "m" (2 - 1) = .error e
        ∧ (processMetric jpNone svcErr "m" .primary 2).2 = .error e :=
  claim_C1 jpNone svcErr "m" .primary 2 (by norm_num)
    (fun _ _ => ⟨.raised "network error", rfl⟩)

/- ---- claim C2: the orchestrator's fallback shape ---- -/

lemma list_any_map {α β : Type} (l : List α) (f : α → β) (p : β → Bool) :
    (l.map f).any p = l.any (fun a => p (f a)) := by
  induction l with
  | nil => rfl
  | cons a t ih => simp [List.any_cons, ih]

lemma getFallbackResponse_primary (sec : AnalysisSection) :
    objLookup (getFallbackResponse sec) "primary"
      = some (.obj (pendingEntries "Analysis pending for " sec.primary)) := rfl

lemma getFallbackResponse_deepMetrics (sec : AnalysisSection) :
    objLookup (getFallbackResponse sec) "deep_metrics"
      = some (.obj (pendingEntries "Deep analysis pending for " sec.deep)) := rfl

lemma lookup_pendingEntries (pre : String) :
    ∀ (l : List String) (m : String), m ∈ l →
      lookupObj (pendingEntries pre l) m = some (.str (pre ++ m)) := by
  intro l
  induction l with
  | nil => intro m h; cases h
  | cons k rest ih =>
      intro m hm
      simp only [pendingEntries, lookupObj]
      by_cases hk : k = m
      · subst hk
        simp
      · rw [if_neg hk]
        refine ih m ?_
        rcases List.mem_cons.mp hm with rfl | h'
        · exact absurd rfl hk
        · exact h'

/-- **C2** (counterexample).  On an internal failure (here: both attempts
of the single primary metric raise) the orchestrator returns
`getFallbackResponse`, whose keys are `primary` and `deep_metrics` — there
is *no* `deep` map at all — and whose per-metric values are bare
placeholder strings, not `MetricResult`-shaped objects. -/
theorem claim_C2_cex :
    (generateAnalytics jpNone svcErr true sec1).2
      = .obj (.cons "primary" (.obj (.cons "p" (.str "Analysis pending for p") .nil))
          (.cons "deep_metrics"
            (.obj (.cons "d" (.str "Deep analysis pending for d") .nil)) .nil))
    ∧ objLookup (generateAnalytics jpNone svcErr true sec1).2 "deep" = none
    ∧ isMetricResultB (.str "Analysis pending for p") = false := ⟨rfl, rfl, rfl⟩

/-- **C2** (amended).  `generateAnalytics` never raises (it is a total
function of the embedding; every internal rejection is caught), and on an
internal failure — an unset model, or a primary-tier rejection — it returns
`getFallbackResponse(section)`: an object whose `primary` and
`deep_metrics` maps carry a placeholder *string* for every requested
metric name (no name is dropped), with no `deep` key and no
`MetricResult` shape. -/
theorem claim_C2 : ∀ (jparse : JParse) (svc : Svc) (sec : AnalysisSection),
    (generateAnalytics jparse svc false sec).2 = getFallbackResponse sec
    ∧ (sec.primary.any (fun m => isErrB (processMetric jparse svc m .primary 2).2) = true →
        (generateAnalytics jparse svc true sec).2 = getFallbackResponse sec)
    ∧ (∀ m ∈ sec.primary,
        objLookup2 (getFallbackResponse sec) "primary" m
          = some (.str ("Analysis pending for " ++ m)))
    ∧ (∀ m ∈ sec.deep,
        objLookup2 (getFallbackResponse sec) "deep_metrics" m
          = some (.str ("Deep analysis pending for " ++ m)))
    ∧ objLookup (getFallbackResponse sec) "deep" = none := by
  intro jparse svc sec
  refine ⟨rfl, ?_, ?_, ?_, ?_⟩
  · intro h
    have hany : (sec.primary.map
        (fun m => (m, processMetric jparse svc m .primary 2))).any
          (fun x => isErrB x.2.2) = true := by
      rw [list_any_map]
      exact h
    simp only [generateAnalytics, Bool.not_true]
    rw [if_neg (by simp), if_pos hany]
  · intro m hm
    unfold objLookup2
    rw [getFallbackResponse_primary]
    exact lookup_pendingEntries _ _ _ hm
  · intro m hm
    unfold objLookup2
    rw [getFallbackResponse_deepMetrics]
    exact lookup_pendingEntries _ _ _ hm
  · rfl

/-- **C2** (witness): the amended theorem evaluated at the failing service
and the one-primary / one-deep section. -/
theorem claim_C2_wit :
    (generateAnalytics jpNone svcErr true sec1).2 = getFallbackResponse sec1
    ∧ objLookup2 (getFallbackResponse sec1) "primary" "p"
        = some (.str ("Analysis pending for " ++ "p"))
    ∧ objLookup2 (getFallbackResponse sec1) "deep_metrics" "d"
        = some (.str ("Deep analysis pending for " ++ "d"))
    ∧ objLookup (getFallbackResponse sec1) "deep" = none :=
  ⟨(claim_C2 jpNone svcErr sec1).2.1 rfl,
   (claim_C2 jpNone svcErr sec1).2.2.1 "p" (by simp [sec1]),
   (claim_C2 jpNone svcErr sec1).2.2.2.1 "d" (by simp [sec1]),
   (claim_C2 jpNone svcErr sec1).2.2.2.2⟩

/- ---- claim C3: tier ordering and (in)dependence ---- -/

/-- **C3** (counterexample).  The claim says the deep tier executes and
produces a result for every deep metric name regardless of primary-tier
failure.  With a service whose every call raises and the section
`⟨["p"], ["d"]⟩`, the trace contains only the two primary-tier calls — no
deep call is ever issued — and the output has no `deep` map at all. -/
theorem claim_C3_cex :
    (generateAnalytics jpNone svcErr true sec1).1
      = [⟨.primary, "p", 0⟩, ⟨.primary, "p", 1⟩]
    ∧ sec1.deep = ["d"]
    ∧ objLookup (generateAnalytics jpNone svcErr true sec1).2 "deep" = none :=
  ⟨rfl, rfl, rfl⟩

/-- **C3** (amended).  The tiers are *not* independent, and primary-tier
completion *is* ordered before deep-tier start: in every run the trace is a
block of primary-tier calls followed by a block of deep-tier calls (the
deep promises are only created after `await Promise.all(primary)` at route
lines 202–211), and whenever some primary metric's run rejects, no
deep-tier call appears in the trace and the whole result degrades to
`getFallbackResponse`. -/
theorem claim_C3 : ∀ (jparse : JParse) (svc : Svc) (modelSet : Bool) (sec : AnalysisSection),
    (∃ t1 t2, (generateAnalytics jparse svc modelSet sec).1 = t1 ++ t2
      ∧ (∀ e ∈ t1, e.tier = .primary) ∧ (∀ e ∈ t2, e.tier = .deep))
    ∧ (sec.primary.any (fun m => isErrB (processMetric jparse svc m .primary 2).2) = true →
        (∀ e ∈ (generateAnalytics jparse svc modelSet sec).1, e.tier = .primary)
        ∧ (generateAnalytics jparse svc modelSet sec).2 = getFallbackResponse sec) := by
  intro jparse svc modelSet sec
  cases modelSet with
  | false =>
      refine ⟨⟨[], [], rfl, by simp, by simp⟩, ?_⟩
      intro _
      exact ⟨by simp [generateAnalytics], rfl⟩
  | true =>
      by_cases hany : (sec.primary.map
          (fun m => (m, processMetric jparse svc m .primary 2))).any
            (fun x => isErrB x.2.2) = true
      · constructor
        · refine ⟨(generateAnalytics jparse svc true sec).1, [], by simp, ?_, by simp⟩
          intro e he
          simp only [generateAnalytics, Bool.not_true] at he
          rw [if_neg (by simp), if_pos hany] at he
          exact mapTrace_tier jparse svc .primary 2 sec.primary e he
        · intro _
          constructor
          · intro e he
            simp only [generateAnalytics, Bool.not_true] at he
            rw [if_neg (by simp), if_pos hany] at he
            exact mapTrace_tier jparse svc .primary 2 sec.primary e he
          · simp only [generateAnalytics, Bool.not_true]
            rw [if_neg (by simp), if_pos hany]
      · have hres : ∀ h2 : sec.primary.any
            (fun m => isErrB (processMetric jparse svc m .primary 2).2) = true, False := by
          intro h2
          apply hany
          rw [list_any_map]
          exact h2
        refine ⟨?_, fun h2 => absurd h2 (fun h2 => hres h2)⟩
        by_cases hde : sec.deep.isEmpty = true
        · refine ⟨(generateAnalytics jparse svc true sec).1, [], by simp, ?_, by simp⟩
          intro e he
          simp only [generateAnalytics, Bool.not_true] at he
          rw [if_neg (by simp), if_neg hany, if_pos hde] at he
          exact mapTrace_tier jparse svc .primary 2 sec.primary e he
        · by_cases hdany : (sec.deep.map
              (fun m => (m, processMetric jparse svc m .deep 1))).any
                (fun x => isErrB x.2.2) = true
          · refine ⟨_, _, ?_, mapTrace_tier jparse svc .primary 2 sec.primary,
              mapTrace_tier jparse svc .deep 1 sec.deep⟩
            simp only [generateAnalytics, Bool.not_true]
            rw [if_neg (by simp), if_neg hany, if_neg hde, if_pos hdany]
          · refine ⟨_, _, ?_, mapTrace_tier jparse svc .primary 2 sec.primary,
              mapTrace_tier jparse svc .deep 1 sec.deep⟩
            simp only [generateAnalytics, Bool.not_true]
            rw [if_neg (by simp), if_neg hany, if_neg hde, if_neg hdany]

/-- **C3** (witness): the amended theorem at the failing service — the
trace splits into tier blocks, and the primary failure forces a
primary-only trace with the fallback result. -/
theorem claim_C3_wit :
    (∃ t1 t2, (generateAnalytics jpNone svcErr true sec1).1 = t1 ++ t2
      ∧ (∀ e ∈ t1, e.tier = .primary) ∧ (∀ e ∈ t2, e.tier = .deep))
    ∧ ((∀ e ∈ (generateAnalytics jpNone svcErr true sec1).1, e.tier = .primary)
        ∧ (generateAnalytics jpNone svcErr true sec1).2 = getFallbackResponse sec1) :=
  ⟨(claim_C3 jpNone svcErr true sec1).1, (claim_C3 jpNone svcErr true sec1).2 rfl⟩

/- ---- claim C10: one failing deep metric discards the whole deep tier ---- -/

/-- **C10**.  Whenever the deep tier runs (non-empty deep list, primary
tier fully resolved) and *any* deep metric's single-attempt run rejects —
for any reason, not only the aggregate 15-second expiry — the `deep` map of
the outcome is the deterministic fallback for *every* deep metric name:
results of deep metrics that succeeded are discarded too. -/
theorem claim_C10 : ∀ (jparse : JParse) (svc : Svc) (sec : AnalysisSection),
    sec.deep ≠ [] →
    sec.primary.all (fun m => !isErrB (processMetric jparse svc m .primary 2).2) = true →
    sec.deep.any (fun m => isErrB (processMetric jparse svc m .deep 1).2) = true →
    objLookup (generateAnalytics jparse svc true sec).2 "deep"
      = some (.obj (fallbackEntries sec.deep)) := by
  intro jparse svc sec hdne hallp hanyd
  have hanyp : (sec.primary.map
      (fun m => (m, processMetric jparse svc m .primary 2))).any
        (fun x => isErrB x.2.2) = true → False := by
    intro h
    rw [list_any_map, List.any_eq_true] at h
    obtain ⟨m, hm, hErr⟩ := h
    rw [List.all_eq_true] at hallp
    have := hallp m hm
    rw [hErr] at this
    simp at this
  have hde : ¬ sec.deep.isEmpty = true := by
    intro h
    exact hdne (List.isEmpty_iff.mp h)
  have hdany : (sec.deep.map
      (fun m => (m, processMetric jparse svc m .deep 1))).any
        (fun x => isErrB x.2.2) = true := by
    rw [list_any_map]
    exact hanyd
  simp only [generateAnalytics, Bool.not_true]
  rw [if_neg (by simp), if_neg (fun h => hanyp h), if_neg hde, if_pos hdany]
  rfl

/-- **C10** (witness): with a service where metric `d2`'s single deep
attempt raises but `d1`'s deep run would succeed, the whole deep map is the
fallback — including the entry for `d1`. -/
theorem claim_C10_wit :
    objLookup (generateAnalytics jpOne svcD2 true sec2).2 "deep"
      = some (.obj (fallbackEntries sec2.deep))
    ∧ isErrB (processMetric jpOne svcD2 "d1" .deep 1).2 = false :=
  ⟨claim_C10 jpOne svcD2 sec2 (by simp [sec2]) rfl rfl, rfl⟩

/- ---- claim C8: extension dispatch ---- -/

lemma processFile_eq (xr : Except String (JsValue × List String))
    (cr : Except String JsValue) (pr : Except String (String × Nat)) (filename : String) :
    processFile xr cr pr filename =
      if extensionOf filename = "xlsx" ∨ extensionOf filename = "xls" then
        processExcel xr filename
      else if extensionOf filename = "csv" then processCSV cr filename
      else if extensionOf filename = "pdf" then processPDF pr filename
      else .error ("Unsupported file type: " ++ extensionOf filename) := rfl

/-- **C8**.  `processFile` dispatches on the lower-cased extension: the
spreadsheet extensions go to the Excel parser, `csv` to the CSV parser,
`pdf` to the PDF parser — each returning the correspondingly-tagged
`ParsedDocument` on parser success — and every other extension is a hard
`Unsupported file type` rejection with no fallback parsing. -/
theorem claim_C8 : ∀ (xr : Except String (JsValue × List String))
    (cr : Except String JsValue) (pr : Except String (String × Nat)) (filename : String),
    ((extensionOf filename = "xlsx" ∨ extensionOf filename = "xls") →
        processFile xr cr pr filename = processExcel xr filename
        ∧ ∀ sheets names, xr = .ok (sheets, names) →
            processFile xr cr pr filename = .ok (.excel filename sheets names))
    ∧ (extensionOf filename = "csv" →
        processFile xr cr pr filename = processCSV cr filename
        ∧ ∀ records, cr = .ok records →
            processFile xr cr pr filename = .ok (.csv filename records))
    ∧ (extensionOf filename = "pdf" →
        processFile xr cr pr filename = processPDF pr filename
        ∧ ∀ content pages, pr = .ok (content, pages) →
            processFile xr cr pr filename = .ok (.pdf filename content pages))
    ∧ (extensionOf filename ≠ "xlsx" → extensionOf filename ≠ "xls" →
        extensionOf filename ≠ "csv" → extensionOf filename ≠ "pdf" →
        processFile xr cr pr filename
          = .error ("Unsupported file type: " ++ extensionOf filename)) := by
  intro xr cr pr filename
  refine ⟨?_, ?_, ?_, ?_⟩
  · intro h
    have hdisp : processFile xr cr pr filename = processExcel xr filename := by
      rw [processFile_eq, if_pos h]
    refine ⟨hdisp, ?_⟩
    intro sheets names hxr
    rw [hdisp, hxr]
    rfl
  · intro h
    have hdisp : processFile xr cr pr filename = processCSV cr filename := by
      rw [processFile_eq, h]
      rw [if_neg (by decide), if_pos rfl]
    refine ⟨hdisp, ?_⟩
    intro records hcr
    rw [hdisp, hcr]
    rfl
  · intro h
    have hdisp : processFile xr cr pr filename = processPDF pr filename := by
      rw [processFile_eq, h]
      rw [if_neg (by decide), if_neg (by decide), if_pos rfl]
    refine ⟨hdisp, ?_⟩
    intro content pages hpr
    rw [hdisp, hpr]
    rfl
  · intro h1 h2 h3 h4
    rw [processFile_eq, if_neg (fun hc => hc.elim h1 h2), if_neg h3, if_neg h4]

/-- **C8** (witness): an upper-case spreadsheet filename dispatches to the
Excel parser (lower-casing included), and an unknown extension is a hard
rejection. -/
theorem claim_C8_wit :
    processFile (.ok (jobj [], ["S1"])) (.error "x") (.error "x") "Report.XLSX"
      = .ok (.excel "Report.XLSX" (jobj []) ["S1"])
    ∧ processFile (.error "x") (.error "x") (.error "x") "notes.txt"
      = .error ("Unsupported file type: " ++ extensionOf "notes.txt")
    ∧ extensionOf "notes.txt" = "txt" :=
  ⟨((claim_C8 (.ok (jobj [], ["S1"])) (.error "x") (.error "x") "Report.XLSX").1
      (Or.inl rfl)).2 (jobj []) ["S1"] rfl,
   (claim_C8 (.error "x") (.error "x") (.error "x") "notes.txt").2.2.2
      (by decide) (by decide) (by decide) (by decide),
   rfl⟩

/- ---- claim C9: the batch loop ---- -/

lemma processRequest_loop (jparse : JParse) (svc : Svc) :
    ∀ (files : List UploadFile) (rs : List BatchResult) (es : List BatchError),
      files.foldl (batchStep jparse svc) (rs, es)
        = (rs ++ files.filterMap (fileSuccess jparse svc),
           es ++ files.filterMap (fileFailure jparse svc)) := by
  intro files
  induction files with
  | nil => intro rs es; simp
  | cons f t ih =>
      intro rs es
      simp only [List.foldl_cons, List.filterMap_cons]
      cases hpf : processOneFile jparse svc f with
      | ok r =>
          simp only [batchStep, hpf]
          rw [ih]
          simp [fileSuccess, fileFailure, hpf, Except.toOption]
      | error e =>
          simp only [batchStep, hpf]
          rw [ih]
          simp [fileSuccess, fileFailure, hpf, Except.toOption]

lemma processRequest_count (jparse : JParse) (svc : Svc) :
    ∀ files : List UploadFile,
      (files.filterMap (fileSuccess jparse svc)).length
        + (files.filterMap (fileFailure jparse svc)).length = files.length := by
  intro files
  induction files with
  | nil => rfl
  | cons f t ih =>
      simp only [List.filterMap_cons, List.length_cons]
      cases hpf : processOneFile jparse svc f with
      | ok r =>
          simp only [fileSuccess, fileFailure, hpf, Except.toOption]
          simp only [List.length_cons]
          omega
      | error e =>
          simp only [fileSuccess, fileFailure, hpf, Except.toOption]
          simp only [List.length_cons]
          omega

/-- **C9**.  For every non-empty batch that passes the size pre-check, the
response is `success` with: `results` exactly the files whose pipeline
succeeded (in order), `errors` exactly the files whose pipeline raised
(with their messages), `totalFiles` the number of uploads,
`successfulFiles = results.length`, `failedFiles = errors.length`, and
`successfulFiles + failedFiles = totalFiles` — each file contributes
exactly one entry to exactly one of the two sequences, and one bad file
never aborts the batch. -/
theorem claim_C9 : ∀ (jparse : JParse) (svc : Svc) (files : List UploadFile),
    files ≠ [] →
    files.all (fun f => f.size ≤ sizeLimit) = true →
    processRequest jparse svc files
      = .success (files.filterMap (fileSuccess jparse svc))
          (files.filterMap (fileFailure jparse svc)) files.length
          (files.filterMap (fileSuccess jparse svc)).length
          (files.filterMap (fileFailure jparse svc)).length
    ∧ (files.filterMap (fileSuccess jparse svc)).length
        + (files.filterMap (fileFailure jparse svc)).length = files.length := by
  intro jparse svc files hne hsz
  have hnotempty : files.isEmpty = false := by
    cases files with
    | nil => exact absurd rfl hne
    | cons f t => rfl
  have hnosize : files.any (fun f => sizeLimit < f.size) = false := by
    rw [List.any_eq_false]
    intro f hf
    rw [List.all_eq_true] at hsz
    have := hsz f hf
    simp at this ⊢
    omega
  refine ⟨?_, processRequest_count jparse svc files⟩
  have hloop := processRequest_loop jparse svc files [] []
  simp only [List.nil_append] at hloop
  unfold processRequest
  rw [if_neg (by simp [hnotempty]), if_neg (by simp [hnosize])]
  simp only [hloop]

/-- **C9** (witness): three files where exactly the second fails to parse
(unsupported extension) yield `results` of length 2, `errors` of length 1,
and counts `3 / 2 / 1`. -/
theorem claim_C9_wit :
    (processRequest jpNone svcErr [fileA, fileB, fileC]
      = .success ([fileA, fileB, fileC].filterMap (fileSuccess jpNone svcErr))
          ([fileA, fileB, fileC].filterMap (fileFailure jpNone svcErr)) 3
          ([fileA, fileB, fileC].filterMap (fileSuccess jpNone svcErr)).length
          ([fileA, fileB, fileC].filterMap (fileFailure jpNone svcErr)).length
      ∧ ([fileA, fileB, fileC].filterMap (fileSuccess jpNone svcErr)).length
          + ([fileA, fileB, fileC].filterMap (fileFailure jpNone svcErr)).length = 3)
    ∧ ([fileA, fileB, fileC].filterMap (fileSuccess jpNone svcErr)).length = 2
    ∧ ([fileA, fileB, fileC].filterMap (fileFailure jpNone svcErr)).length = 1
    ∧ [fileA, fileB, fileC].filterMap (fileFailure jpNone svcErr)
        = [⟨"b.txt", "Unsupported file type: txt"⟩] :=
  ⟨claim_C9 jpNone svcErr [fileA, fileB, fileC] (by simp) rfl, rfl, rfl, rfl⟩
